import Mathlib

/-!
# Verification of the GEN-kgmid batch-processing engine

A shallow embedding, in Lean 4, of the job-processing core of the
GEN-kgmid repository:

* `src/lib/concurrency.ts` — the `pLimit` bounded-concurrency executor,
  modelled as a state machine over submit/finish events
  (`LimiterState`, `submitStep`, `finishStep`);
* `src/inngest/functions.ts` — the `processWikidata` driver loop:
  retry/backoff controller (`retryFrom`), chunk processing
  (`processChunk`), the chunked driver (`driverGo`) and the
  final completion step (`markCompleted`);
* the batch lifecycle API routes (`cancel`, `retry`, upload `init`
  and upload `complete`) as transition functions on `BatchStatus`;
* the idempotent bulk upsert of `upload/chunk` over the
  `(batchId, data._rowId)` unique index (`bulkUpsert`).

Machine integers are modelled as `Nat`/`Int`; the JavaScript
`Math.round(x*100)` on exact rationals is `roundPct`.
-/

set_option maxHeartbeats 1000000
set_option maxRecDepth 100000

namespace GenKgMid

/-! ## Statuses (src/models/Batch.ts, src/models/BatchItem.ts) -/

/-- `BATCH_STATUSES` from `src/models/Batch.ts`. -/
inductive BatchStatus where
  | PENDING | UPLOADING | PROCESSING | COMPLETED | FAILED | STOPPED
  deriving DecidableEq, Repr, Fintype

/-- `BATCH_ITEM_STATUSES` from `src/models/BatchItem.ts`. -/
inductive ItemStatus where
  | PENDING | COMPLETED | FAILED
  deriving DecidableEq, Repr

/-! ## The pLimit concurrency limiter (src/lib/concurrency.ts)

`pLimit(limit)` keeps `activeCount` and a FIFO `queue` of pending
task thunks.  `enqueue` runs a task at once when `activeCount < limit`
and queues it otherwise; when a running task settles (resolve *or*
reject), `next()` decrements `activeCount` and pops one queued task.
We model the limiter as a transition system over events
`submit t` (a call of the returned `enqueue` with task id `t`) and
`finish t ok` (task `t` settles, successfully iff `ok`).  The JS
`limit` argument is a `number`, so we keep it as `Int` to cover the
degenerate `limit <= 0` case. -/

/-- State of one `pLimit` instance: queued task ids in FIFO order,
ids currently in flight, and settled ids with their outcome. -/
structure LimiterState where
  queue : List Nat
  active : List Nat
  settled : List (Nat × Bool)
  deriving DecidableEq, Repr

/-- The freshly created limiter: no queue, `activeCount = 0`. -/
def LimiterState.init : LimiterState := ⟨[], [], []⟩

/-- `enqueue` (concurrency.ts line 30): run now when
`activeCount < limit`, else push onto the queue. -/
def submitStep (limit : Int) (s : LimiterState) (t : Nat) : LimiterState :=
  if (s.active.length : Int) < limit then
    { s with active := s.active ++ [t] }
  else
    { s with queue := s.queue ++ [t] }

/-- A task settles: `run` resolves or rejects the promise and calls
`next()` (line 10), which decrements `activeCount` and, when the
queue is non-empty, shifts and starts the next queued task.  The
outcome flag `ok` does not affect the transition: the success and
failure paths of `run` both fall through to `next()`. -/
def finishStep (s : LimiterState) (t : Nat) (ok : Bool) : LimiterState :=
  let active' := s.active.erase t
  match s.queue with
  | [] => { queue := [], active := active', settled := (t, ok) :: s.settled }
  | q :: rest => { queue := rest, active := active' ++ [q], settled := (t, ok) :: s.settled }

/-- An event of the limiter system. -/
inductive LimitEvent where
  | submit (t : Nat)
  | finish (t : Nat) (ok : Bool)
  deriving DecidableEq, Repr

/-- Apply one event. -/
def applyEvent (limit : Int) (s : LimiterState) : LimitEvent → LimiterState
  | .submit t => submitStep limit s t
  | .finish t ok => finishStep s t ok

/-- An event is enabled: submitted ids are fresh, and only an
in-flight task can settle. -/
def validEvent (s : LimiterState) : LimitEvent → Bool
  | .submit t =>
      decide (t ∉ s.queue) && decide (t ∉ s.active) && decide (t ∉ s.settled.map Prod.fst)
  | .finish t _ => decide (t ∈ s.active)

/-- Run a list of events from a state. -/
def runEvents (limit : Int) (s : LimiterState) : List LimitEvent → LimiterState
  | [] => s
  | e :: evs => runEvents limit (applyEvent limit s e) evs

/-- The whole event list is enabled step by step. -/
def validTrace (limit : Int) (s : LimiterState) : List LimitEvent → Bool
  | [] => true
  | e :: evs => validEvent s e && validTrace limit (applyEvent limit s e) evs

/-- Ids submitted in a trace, in order. -/
def submitsOf : List LimitEvent → List Nat
  | [] => []
  | .submit t :: evs => t :: submitsOf evs
  | .finish _ _ :: evs => submitsOf evs

/-- Concurrency ceiling of the driver loop
(`Math.max(1, validKeys.length * 1)`, functions.ts line 62). -/
def driverConcurrency (validKeys : List String) : Nat :=
  max 1 (validKeys.length * 1)

/-- Every task id the limiter has ever accepted, in some order:
still queued, in flight, or settled. -/
def LimiterState.accounted (s : LimiterState) : List Nat :=
  s.queue ++ s.active ++ s.settled.map Prod.fst

/-- The limiter's safety invariant: never more than `limit` tasks in
flight, and the queue is non-empty only when all slots are taken. -/
def LimiterInv (limit : Int) (s : LimiterState) : Prop :=
  ((s.active.length : Int) ≤ limit) ∧
  (s.queue ≠ [] → (s.active.length : Int) = limit)

theorem limiterInv_init (limit : Int) (h : 0 ≤ limit) : LimiterInv limit .init := by
  constructor
  · simpa [LimiterState.init] using h
  · intro hq; exact absurd rfl hq

theorem limiterInv_applyEvent {limit : Int} {s : LimiterState} {e : LimitEvent}
    (hv : validEvent s e = true) (hinv : LimiterInv limit s) :
    LimiterInv limit (applyEvent limit s e) := by
  obtain ⟨h1, h2⟩ := hinv
  cases e with
  | submit t =>
    simp only [applyEvent, submitStep]
    by_cases hg : (s.active.length : Int) < limit
    · simp only [if_pos hg]
      refine ⟨?_, ?_⟩
      · simp only [List.length_append, List.length_cons, List.length_nil]
        push_cast; omega
      · intro hq
        have := h2 hq
        omega
    · simp only [if_neg hg]
      refine ⟨h1, fun _ => ?_⟩
      show (s.active.length : Int) = limit
      omega
  | finish t ok =>
    have ht : t ∈ s.active := by
      simpa [validEvent] using hv
    have hlen : (s.active.erase t).length = s.active.length - 1 :=
      List.length_erase_of_mem ht
    have hpos : 1 ≤ s.active.length := List.length_pos.mpr (List.ne_nil_of_mem ht)
    simp only [applyEvent, finishStep]
    cases hq : s.queue with
    | nil =>
      refine ⟨?_, ?_⟩
      · simp only [hlen]; omega
      · intro hq'; exact absurd rfl hq'
    | cons q rest =>
      have heq : (s.active.length : Int) = limit := h2 (by simp [hq])
      refine ⟨?_, ?_⟩
      · simp only [List.length_append, List.length_cons, List.length_nil, hlen]
        push_cast; omega
      · intro _
        simp only [List.length_append, List.length_cons, List.length_nil, hlen]
        push_cast; omega

theorem limiterInv_runEvents {limit : Int} {s : LimiterState} {evs : List LimitEvent}
    (hv : validTrace limit s evs = true) (hinv : LimiterInv limit s) :
    LimiterInv limit (runEvents limit s evs) := by
  induction evs generalizing s with
  | nil => simpa [runEvents] using hinv
  | cons e evs ih =>
    simp only [validTrace, Bool.and_eq_true] at hv
    exact ih hv.2 (limiterInv_applyEvent hv.1 hinv)

/-- Each accepted task stays accounted for: one event preserves
membership in `accounted`, and a submit adds its id. -/
theorem mem_accounted_applyEvent {limit : Int} {s : LimiterState} {e : LimitEvent}
    (hv : validEvent s e = true) (a : Nat)
    (ha : a ∈ s.accounted ∨ (∃ ok, e = .submit a ∧ ok = true)) :
    a ∈ (applyEvent limit s e).accounted := by
  cases e with
  | submit t =>
    simp only [applyEvent, submitStep]
    by_cases hg : (s.active.length : Int) < limit <;>
      simp only [if_pos, if_neg, hg, if_true, if_false] <;>
      · rcases ha with ha | ⟨_, ht, _⟩
        · simp only [LimiterState.accounted, List.mem_append] at ha ⊢
          tauto
        · cases ht
          simp [LimiterState.accounted]
  | finish t ok =>
    rcases ha with ha | ⟨_, ht, _⟩
    · have htm : t ∈ s.active := by simpa [validEvent] using hv
      simp only [LimiterState.accounted, List.mem_append] at ha
      simp only [applyEvent, finishStep]
      cases hq : s.queue with
      | nil =>
        simp only [LimiterState.accounted, List.mem_append]
        rcases ha with (hqm | ham) | hsm
        · rw [hq] at hqm; simp at hqm
        · by_cases hat : a = t
          · subst hat; right; simp
          · left; right; exact (List.mem_erase_of_ne hat).mpr ham
        · right; simp only [List.map_cons, List.mem_cons]
          exact Or.inr hsm
      | cons q rest =>
        simp only [LimiterState.accounted, List.mem_append]
        rcases ha with (hqm | ham) | hsm
        · rw [hq] at hqm
          rcases List.mem_cons.mp hqm with h | h
          · subst h; left; right; simp
          · left; left; exact h
        · by_cases hat : a = t
          · subst hat; right; simp
          · left; right
            exact Or.inl ((List.mem_erase_of_ne hat).mpr ham)
        · right; simp only [List.map_cons, List.mem_cons]
          exact Or.inr hsm
    · cases ht

/-- Over a valid trace, every submitted id ends up accounted for. -/
theorem submits_subset_accounted {limit : Int} {s : LimiterState} {evs : List LimitEvent}
    (hv : validTrace limit s evs = true) :
    ∀ a, a ∈ s.accounted ∨ a ∈ submitsOf evs →
      a ∈ (runEvents limit s evs).accounted := by
  induction evs generalizing s with
  | nil =>
    intro a ha
    simp only [submitsOf] at ha
    simpa [runEvents] using ha.resolve_right (by simp)
  | cons e evs ih =>
    simp only [validTrace, Bool.and_eq_true] at hv
    intro a ha
    simp only [runEvents]
    apply ih hv.2
    cases e with
    | submit t =>
      rcases ha with ha | ha
      · exact Or.inl (mem_accounted_applyEvent hv.1 a (Or.inl ha))
      · simp only [submitsOf, List.mem_cons] at ha
        rcases ha with rfl | ha
        · exact Or.inl (mem_accounted_applyEvent hv.1 a (Or.inr ⟨true, rfl, rfl⟩))
        · exact Or.inr ha
    | finish t ok =>
      rcases ha with ha | ha
      · exact Or.inl (mem_accounted_applyEvent hv.1 a (Or.inl ha))
      · simp only [submitsOf] at ha
        exact Or.inr ha

/-- With a non-positive limit no task is ever admitted: the actives
and settled lists stay empty and every submission is queued forever. -/
theorem limiter_stuck_runEvents {limit : Int} (hlim : limit ≤ 0)
    {s : LimiterState} {evs : List LimitEvent}
    (hv : validTrace limit s evs = true)
    (ha : s.active = []) (hs : s.settled = []) :
    (runEvents limit s evs).active = [] ∧
    (runEvents limit s evs).settled = [] ∧
    (runEvents limit s evs).queue = s.queue ++ submitsOf evs := by
  induction evs generalizing s with
  | nil => simp [runEvents, submitsOf, ha, hs]
  | cons e evs ih =>
    simp only [validTrace, Bool.and_eq_true] at hv
    cases e with
    | submit t =>
      have hg : ¬ ((s.active.length : Int) < limit) := by
        rw [ha]; simp; omega
      simp only [runEvents, applyEvent, submitStep, if_neg hg]
      have hv2 : validTrace limit { s with queue := s.queue ++ [t] } evs = true := by
        simpa [applyEvent, submitStep, if_neg hg] using hv.2
      have := ih (s := { s with queue := s.queue ++ [t] }) hv2 ha hs
      refine ⟨this.1, this.2.1, ?_⟩
      rw [this.2.2]
      simp [submitsOf]
    | finish t ok =>
      exfalso
      have : t ∈ s.active := by simpa [validEvent] using hv.1
      rw [ha] at this
      simp at this

/-- C1: with the driver's concurrency ceiling `N = max(1, #credentials) >= 1`,
the `pLimit` executor never has more than `N` tasks in flight on any
valid trace; once every started task has settled (`active = []`),
nothing remains queued — every submitted task was started and settled,
including traces where some tasks reject (`ok = false`). -/
theorem pLimit_ceiling_and_drain (limit : Int) (keys : List String)
    (evs : List LimitEvent) (hlim : 1 ≤ limit)
    (hv : validTrace limit .init evs = true) :
    ((runEvents limit .init evs).active.length : Int) ≤ limit ∧
    ((runEvents limit .init evs).active = [] →
      (runEvents limit .init evs).queue = [] ∧
      ∀ t ∈ submitsOf evs, t ∈ (runEvents limit .init evs).settled.map Prod.fst) ∧
    driverConcurrency keys = max 1 keys.length ∧
    1 ≤ driverConcurrency keys := by
  have hinv : LimiterInv limit (runEvents limit .init evs) :=
    limiterInv_runEvents hv (limiterInv_init limit (by omega))
  refine ⟨hinv.1, ?_, by simp [driverConcurrency], le_max_left 1 _⟩
  intro hact
  have hq : (runEvents limit .init evs).queue = [] := by
    by_contra hne
    have := hinv.2 hne
    rw [hact] at this
    simp at this
    omega
  refine ⟨hq, fun t ht => ?_⟩
  have hmem := submits_subset_accounted hv t (Or.inr ht)
  simp only [LimiterState.accounted, List.mem_append, hq, hact] at hmem
  simpa using hmem

/-- Witness for `pLimit_ceiling_and_drain` at limit 2 on a trace of
three submitted tasks, one of which rejects. -/
theorem pLimit_ceiling_and_drain_witness :
    (1 : Int) ≤ 2 ∧
    validTrace 2 .init
      [.submit 0, .submit 1, .submit 2, .finish 0 false, .finish 1 true, .finish 2 true] = true ∧
    (((runEvents 2 .init
        [.submit 0, .submit 1, .submit 2, .finish 0 false, .finish 1 true, .finish 2 true]).active.length : Int) ≤ 2 ∧
     ((runEvents 2 .init
        [.submit 0, .submit 1, .submit 2, .finish 0 false, .finish 1 true, .finish 2 true]).active = [] →
       (runEvents 2 .init
        [.submit 0, .submit 1, .submit 2, .finish 0 false, .finish 1 true, .finish 2 true]).queue = [] ∧
       ∀ t ∈ submitsOf
          [.submit 0, .submit 1, .submit 2, .finish 0 false, .finish 1 true, .finish 2 true],
         t ∈ (runEvents 2 .init
          [.submit 0, .submit 1, .submit 2, .finish 0 false, .finish 1 true, .finish 2 true]).settled.map Prod.fst) ∧
     driverConcurrency ["key1", "key2"] = max 1 (["key1", "key2"] : List String).length ∧
     1 ≤ driverConcurrency ["key1", "key2"]) :=
  ⟨by decide, by decide,
   pLimit_ceiling_and_drain 2 ["key1", "key2"]
     [.submit 0, .submit 1, .submit 2, .finish 0 false, .finish 1 true, .finish 2 true]
     (by decide) (by decide)⟩

/-- C10: for a limit `N <= 0` the admission guard
`activeCount < limit` never fires, so no submitted task ever starts
and none ever settles — submissions accumulate in the queue forever;
and the driver loop's own ceiling `max(1, #credentials)` is at least
1, so this branch is unreachable from the engine. -/
theorem pLimit_nonpositive_never_starts (limit : Int) (hlim : limit ≤ 0)
    (evs : List LimitEvent) (hv : validTrace limit .init evs = true) :
    (runEvents limit .init evs).active = [] ∧
    (runEvents limit .init evs).settled = [] ∧
    (runEvents limit .init evs).queue = submitsOf evs ∧
    ∀ keys : List String, 1 ≤ driverConcurrency keys := by
  have h := limiter_stuck_runEvents hlim hv rfl rfl
  refine ⟨h.1, h.2.1, ?_, fun keys => le_max_left 1 _⟩
  simpa [LimiterState.init] using h.2.2

/-- Witness for `pLimit_nonpositive_never_starts` at limit `-1` with
two submissions. -/
theorem pLimit_nonpositive_never_starts_witness :
    (-1 : Int) ≤ 0 ∧
    validTrace (-1) .init [.submit 5, .submit 7] = true ∧
    ((runEvents (-1) .init [.submit 5, .submit 7]).active = [] ∧
     (runEvents (-1) .init [.submit 5, .submit 7]).settled = [] ∧
     (runEvents (-1) .init [.submit 5, .submit 7]).queue = submitsOf [.submit 5, .submit 7] ∧
     ∀ keys : List String, 1 ≤ driverConcurrency keys) :=
  ⟨by decide, by decide,
   pLimit_nonpositive_never_starts (-1) (by decide) [.submit 5, .submit 7] (by decide)⟩

/-! ## Retry/backoff controller (functions.ts lines 103–137)

One item's lookup is wrapped in a `while (attempt <= MAX_RETRIES)`
loop.  A raised error whose message contains `"429"`, or contains
`"quota"` after lower-casing, counts as a rate limit: the attempt
counter is bumped, and unless it exceeds `MAX_RETRIES` the loop sleeps
`1000 * 2^(attempt-1)` ms plus a random jitter below 1000 ms and calls
again.  Any other error is re-thrown at once.  We model the lookup
collaborator by an oracle `calls : Nat → LookupOutcome` giving the
outcome of the n-th call, and the jitter draws
(`Math.floor(Math.random()*1000)`) by `jit : Nat → Fin 1000`. -/

/-- The structured lookup result assembled at functions.ts lines
139–148 (`kgId`, `kgType`, `kgDescription`, `kgName`, `kgSchemaType`). -/
structure KGRec where
  kgId : String
  kgType : String
  kgDescription : String
  kgName : String
  kgSchemaType : List String
  deriving DecidableEq, Repr

/-- One call of `searchGoogleKGAction` either returns a result (maybe
`null`, modelled `none`) or raises an error with a message. -/
inductive LookupOutcome where
  | ok (r : Option KGRec)
  | err (msg : String)
  deriving DecidableEq, Repr

/-- Final outcome of the retry loop for one item. -/
inductive RetryOutcome where
  | success (r : Option KGRec)
  | failure (msg : String)
  deriving DecidableEq, Repr

/-- JavaScript `String.prototype.includes` on char lists: scan for an
occurrence of `sub`. -/
def listIncludes (sub : List Char) : List Char → Bool
  | [] => sub.isPrefixOf []
  | c :: rest => sub.isPrefixOf (c :: rest) || listIncludes sub rest

theorem listIncludes_iff_infix (sub : List Char) (hay : List Char) :
    listIncludes sub hay = true ↔ sub <:+: hay := by
  induction hay with
  | nil =>
    simp only [listIncludes, List.isPrefixOf_iff_prefix]
    constructor
    · intro h; exact h.isInfix
    · intro h; exact (List.infix_nil.mp h) ▸ List.prefix_refl _
  | cons c rest ih =>
    simp only [listIncludes, Bool.or_eq_true, List.isPrefixOf_iff_prefix, ih,
      List.infix_cons_iff]

/-- The rate-limit classification of functions.ts line 119:
`err.message.includes("429") || err.message.toLowerCase().includes("quota")`. -/
def isRateLimitMsg (msg : String) : Bool :=
  listIncludes "429".toList msg.toList ||
  listIncludes "quota".toList (msg.toList.map Char.toLower)

/-- The loop constant `MAX_RETRIES` (functions.ts line 105). -/
def MAX_RETRIES : Nat := 3

/-- The retry loop from `attempt`, with structural fuel (the code's
loop makes at most `MAX_RETRIES + 1` calls; fuel `MAX_RETRIES + 1 -
attempt` never runs out).  Returns the outcome together with the list
of backoff delays slept before each retry, in order. -/
def retryFrom (calls : Nat → LookupOutcome) (jit : Nat → Fin 1000) :
    Nat → Nat → RetryOutcome × List Nat
  | _, 0 => (.failure "", [])
  | attempt, fuel + 1 =>
    match calls attempt with
    | .ok r => (.success r, [])
    | .err msg =>
      if isRateLimitMsg msg then
        if attempt + 1 > MAX_RETRIES then (.failure msg, [])
        else
          let d := 1000 * 2 ^ (attempt + 1 - 1) + (jit (attempt + 1)).val
          let rest := retryFrom calls jit (attempt + 1) fuel
          (rest.1, d :: rest.2)
      else (.failure msg, [])

/-- The whole wrapped lookup: the loop starts at `attempt = 0`. -/
def searchWithRetry (calls : Nat → LookupOutcome) (jit : Nat → Fin 1000) :
    RetryOutcome × List Nat :=
  retryFrom calls jit 0 (MAX_RETRIES + 1)

/-- At most `MAX_RETRIES - attempt` further retries happen. -/
theorem retryFrom_length_le (calls : Nat → LookupOutcome) (jit : Nat → Fin 1000) :
    ∀ (f a : Nat), (retryFrom calls jit a f).2.length ≤ MAX_RETRIES - a := by
  intro f
  induction f with
  | zero => intro a; simp [retryFrom]
  | succ f ih =>
    intro a
    simp only [retryFrom]
    cases calls a with
    | ok r => simp
    | err msg =>
      simp only
      split
      · split
        · simp
        · rename_i hg
          simp only [List.length_cons]
          have := ih (a + 1)
          omega
      · simp

/-- The k-th recorded backoff delay (0-based, starting at `attempt`)
is `1000 * 2^(attempt+k)` plus the (attempt+k+1)-th jitter draw. -/
theorem retryFrom_delay_values (calls : Nat → LookupOutcome) (jit : Nat → Fin 1000) :
    ∀ (f a k : Nat), k < (retryFrom calls jit a f).2.length →
      (retryFrom calls jit a f).2.get? k =
        some (1000 * 2 ^ (a + k) + (jit (a + k + 1)).val) := by
  intro f
  induction f with
  | zero => intro a k h; simp [retryFrom] at h
  | succ f ih =>
    intro a k h
    revert h
    simp only [retryFrom]
    cases calls a with
    | ok r => intro h; simp at h
    | err msg =>
      simp only
      split
      · split
        · intro h; simp at h
        · intro h
          match k with
          | 0 => simp
          | k + 1 =>
            simp only [List.get?_cons_succ]
            have hlt : k < (retryFrom calls jit (a + 1) f).2.length := by
              simpa using Nat.lt_of_succ_lt_succ h
            rw [ih (a + 1) k hlt]
            have h1 : a + 1 + k = a + (k + 1) := by omega
            rw [h1]
      · intro h; simp at h

/-- A stored `BatchItem` as the engine sees it: whether its payload
already embeds a found id (`itemData.kgId` truthy), its status and its
`result`/`error` fields.  `result = some none` models the empty object
`{}` written when the lookup returned `null`. -/
structure BatchItemRec where
  prefilledKgId : Bool
  status : ItemStatus
  result : Option (Option KGRec)
  error : Option String
  deriving DecidableEq, Repr

/-- Processing of one item (functions.ts lines 84–184): pre-filled
ids short-circuit to COMPLETED; otherwise the retried lookup either
succeeds (COMPLETED, result written) or fails (FAILED, error message
written).  The initial 50–150 ms jitter sleep (line 100) changes no
state and is not modelled.  Returns the updated item and the backoff
delays slept. -/
def processItemRec (calls : Nat → LookupOutcome) (jit : Nat → Fin 1000)
    (it : BatchItemRec) : BatchItemRec × List Nat :=
  if it.prefilledKgId then ({ it with status := .COMPLETED }, [])
  else
    match searchWithRetry calls jit with
    | (.success r, ds) => ({ it with status := .COMPLETED, result := some r }, ds)
    | (.failure msg, ds) => ({ it with status := .FAILED, error := some msg }, ds)

/-- C2: the retry/backoff contract of the controller.  An error is a
rate-limit condition exactly when its message contains `"429"`, or
contains `"quota"` after lower-casing; the loop performs at most 3
retries; the delay before the (k+1)-th retry (0-based `k`) is
`1000 * 2^k` plus a jitter draw below 1000; a first-call error that is
not a rate limit fails at once with no retry; and whenever the loop
ends in failure, the item is recorded FAILED carrying that error
message. -/
theorem retry_backoff_policy (calls : Nat → LookupOutcome) (jit : Nat → Fin 1000) :
    (∀ msg : String, isRateLimitMsg msg = true ↔
      ("429".toList <:+: msg.toList ∨
       "quota".toList <:+: msg.toList.map Char.toLower)) ∧
    (searchWithRetry calls jit).2.length ≤ 3 ∧
    (∀ k, k < (searchWithRetry calls jit).2.length →
      (searchWithRetry calls jit).2.get? k =
        some (1000 * 2 ^ k + (jit (k + 1)).val) ∧ (jit (k + 1)).val < 1000) ∧
    (∀ msg, calls 0 = .err msg → isRateLimitMsg msg = false →
      searchWithRetry calls jit = (.failure msg, [])) ∧
    (∀ msg (it : BatchItemRec), it.prefilledKgId = false →
      (searchWithRetry calls jit).1 = .failure msg →
      (processItemRec calls jit it).1.status = .FAILED ∧
      (processItemRec calls jit it).1.error = some msg) := by
  refine ⟨?_, ?_, ?_, ?_, ?_⟩
  · intro msg
    simp only [isRateLimitMsg, Bool.or_eq_true, listIncludes_iff_infix]
  · simpa [MAX_RETRIES] using retryFrom_length_le calls jit (MAX_RETRIES + 1) 0
  · intro k hk
    refine ⟨?_, (jit (k + 1)).isLt⟩
    simpa using retryFrom_delay_values calls jit (MAX_RETRIES + 1) 0 k hk
  · intro msg hc hrl
    simp [searchWithRetry, retryFrom, hc, hrl]
  · intro msg it hpre hfail
    simp only [processItemRec, hpre, Bool.false_eq_true, if_false]
    cases hsr : searchWithRetry calls jit with
    | mk o ds =>
      rw [hsr] at hfail
      simp only at hfail
      cases o with
      | success r => exact absurd hfail (by simp)
      | failure m =>
        cases hfail
        exact ⟨rfl, rfl⟩

/-- Witness for `retry_backoff_policy`: a lookup that raises
`"HTTP 429"` on every call exhausts its 3 retries with delays
1000/2000/4000 plus the (constant 7) jitter and is recorded FAILED;
classification also accepts a mixed-case quota message and rejects a
plain network error. -/
theorem retry_backoff_policy_witness :
    isRateLimitMsg "HTTP 429" = true ∧
    isRateLimitMsg "QuOtA exceeded for quota metric" = true ∧
    isRateLimitMsg "socket hang up" = false ∧
    searchWithRetry (fun _ => .err "HTTP 429") (fun _ => (7 : Fin 1000)) =
      (.failure "HTTP 429", [1007, 2007, 4007]) ∧
    (searchWithRetry (fun _ => .err "HTTP 429") (fun _ => (7 : Fin 1000))).2.length ≤ 3 ∧
    (processItemRec (fun _ => .err "HTTP 429") (fun _ => (7 : Fin 1000))
        ⟨false, .PENDING, none, none⟩).1.status = .FAILED ∧
    (processItemRec (fun _ => .err "HTTP 429") (fun _ => (7 : Fin 1000))
        ⟨false, .PENDING, none, none⟩).1.error = some "HTTP 429" := by
  refine ⟨by decide, by decide, by decide, by decide, ?_, ?_, ?_⟩
  · exact (retry_backoff_policy (fun _ => .err "HTTP 429") (fun _ => (7 : Fin 1000))).2.1
  · exact ((retry_backoff_policy (fun _ => .err "HTTP 429") (fun _ => (7 : Fin 1000))).2.2.2.2
      "HTTP 429" ⟨false, .PENDING, none, none⟩ rfl (by decide)).1
  · exact ((retry_backoff_policy (fun _ => .err "HTTP 429") (fun _ => (7 : Fin 1000))).2.2.2.2
      "HTTP 429" ⟨false, .PENDING, none, none⟩ rfl (by decide)).2

/-- C7: an item whose lookup raises a non-rate-limit error on the
first call is not retried (no backoff delay is slept) and is recorded
FAILED with that error's message. -/
theorem nonRateLimit_error_fails_immediately (calls : Nat → LookupOutcome)
    (jit : Nat → Fin 1000) (it : BatchItemRec) (msg : String)
    (hpre : it.prefilledKgId = false)
    (hc : calls 0 = .err msg) (hrl : isRateLimitMsg msg = false) :
    processItemRec calls jit it =
      ({ it with status := .FAILED, error := some msg }, []) := by
  simp only [processItemRec, hpre, Bool.false_eq_true, if_false]
  rw [show searchWithRetry calls jit = (.failure msg, []) by
    simp [searchWithRetry, retryFrom, hc, hrl]]

/-- Witness for `nonRateLimit_error_fails_immediately` on a network
error message. -/
theorem nonRateLimit_error_fails_immediately_witness :
    (⟨false, .PENDING, none, none⟩ : BatchItemRec).prefilledKgId = false ∧
    (fun _ : Nat => LookupOutcome.err "ECONNRESET") 0 = .err "ECONNRESET" ∧
    isRateLimitMsg "ECONNRESET" = false ∧
    processItemRec (fun _ => .err "ECONNRESET") (fun _ => (0 : Fin 1000))
        ⟨false, .PENDING, none, none⟩ =
      ({ prefilledKgId := false, status := .FAILED, result := none,
         error := some "ECONNRESET" }, []) :=
  ⟨rfl, rfl, by decide,
   nonRateLimit_error_fails_immediately (fun _ => .err "ECONNRESET")
     (fun _ => (0 : Fin 1000)) ⟨false, .PENDING, none, none⟩ "ECONNRESET"
     rfl rfl (by decide)⟩

/-! ## The chunked driver loop (functions.ts lines 18–225)

`processWikidata` marks the Batch PROCESSING, then repeatedly: checks
the stored status (halting if STOPPED), fetches up to `BATCH_SIZE`
PENDING items, processes them through the limiter and retry
controller, performs best-effort incremental progress writes for
small batches, and ends each chunk with an authoritative sync
computed from a full count of terminal items.  External cancellation
(`cancel` route flipping the status to STOPPED) is modelled by
`stopSig : Nat → Bool`, read at each chunk boundary, plus a final
`finalStop` before the `mark-completed` step.  The concurrent chunk
execution only joins at `Promise.all`, and each task touches only its
own item and the shared completion counter; we model the chunk as a
fold over the fetched items, which realises one interleaving and all
the writes the code performs. -/

/-- The Batch fields the engine reads and writes. -/
structure BatchRec where
  status : BatchStatus
  progress : Nat
  totalItems : Nat
  processedCount : Nat
  deriving DecidableEq, Repr

/-- The store as the engine sees it: one Batch and its items, in
insertion order (the fetch order of `BatchItem.find`). -/
structure EngineState where
  batch : BatchRec
  items : List BatchItemRec
  deriving DecidableEq, Repr

/-- `BATCH_SIZE` (functions.ts line 34). -/
def BATCH_SIZE : Nat := 100

/-- `Math.round((num / den) * 100)` on exact rationals, for
`den > 0`: floor of `num/den*100 + 1/2`. -/
def roundPct (num den : Nat) : Nat := (200 * num + den) / (2 * den)

/-- Count of items whose status is COMPLETED or FAILED
(the `countDocuments` of functions.ts lines 190–193). -/
def terminalCount (items : List BatchItemRec) : Nat :=
  (items.filter (fun it => decide (it.status = .COMPLETED ∨ it.status = .FAILED))).length

/-- Count of PENDING items. -/
def pendingCount (items : List BatchItemRec) : Nat :=
  (items.filter (fun it => decide (it.status = .PENDING))).length

/-- `BatchItem.find({batchId, status: "PENDING"}).limit(BATCH_SIZE)`
(functions.ts lines 49–52), keeping each item's position in the
store. -/
def pendingWithIdx (items : List BatchItemRec) : List (Nat × BatchItemRec) :=
  (items.enum.filter (fun p => decide (p.2.status = .PENDING))).take BATCH_SIZE

/-- Accumulator for one chunk: the item store, the shared
`itemsCompletedInChunk` counter, and the progress writes issued so
far (pairs `(processedCount, progress)`). -/
structure ChunkAcc where
  items : List BatchItemRec
  counter : Nat
  writes : List (Nat × Nat)

/-- One item's pass inside a chunk (functions.ts lines 79–185):
pre-filled short-circuit, retried lookup, item status write, counter
bump, and the incremental progress write fired every
`updateInterval` completions of the success path. -/
def chunkStep (calls : Nat → Nat → LookupOutcome) (jit : Nat → Nat → Fin 1000)
    (useGranular : Bool) (updateInterval base totalForPct : Nat)
    (acc : ChunkAcc) (p : Nat × BatchItemRec) : ChunkAcc :=
  let idx := p.1
  let dbItem := p.2
  if dbItem.prefilledKgId then
    { acc with items := acc.items.set idx { dbItem with status := .COMPLETED },
               counter := if useGranular then acc.counter + 1 else acc.counter }
  else
    match searchWithRetry (calls idx) (jit idx) with
    | (.success r, _) =>
      let c := if useGranular then acc.counter + 1 else acc.counter
      let wrs :=
        if useGranular ∧ c % updateInterval = 0 then
          acc.writes ++ [(base + c, roundPct (base + c) totalForPct)]
        else acc.writes
      { items := acc.items.set idx { dbItem with status := .COMPLETED, result := some r },
        counter := c, writes := wrs }
    | (.failure msg, _) =>
      { acc with items := acc.items.set idx { dbItem with status := .FAILED, error := some msg },
                 counter := if useGranular then acc.counter + 1 else acc.counter }

/-- `const totalItems = batchDoc?.totalItems || items.length`
(functions.ts line 67): JavaScript `||` takes the fallback — the
length of the fetched chunk — when the stored number is 0. -/
def chunkTotalForPct (st : EngineState) : Nat :=
  if st.batch.totalItems = 0 then (pendingWithIdx st.items).length else st.batch.totalItems

/-- `const baseProcessedCount = batchDoc?.processedCount ||
(chunkIndex * BATCH_SIZE)` (functions.ts line 68). -/
def chunkBase (st : EngineState) (chunkIndex : Nat) : Nat :=
  if st.batch.processedCount = 0 then chunkIndex * BATCH_SIZE else st.batch.processedCount

/-- `updateInterval = Math.ceil(totalItems / 100)`, floored at 1
(functions.ts lines 73–74). -/
def chunkInterval (st : EngineState) : Nat := max 1 ((chunkTotalForPct st + 99) / 100)

/-- `useGranularUpdates = totalItems <= 10000` (functions.ts line 76). -/
def chunkUseGranular (st : EngineState) : Bool := chunkTotalForPct st ≤ 10000

/-- The whole per-chunk item pass (`items.map(...)` joined by
`Promise.all`, functions.ts lines 79–187), as a fold over the fetched
chunk starting from the current store, counter 0 and no writes. -/
def chunkFoldOf (calls : Nat → Nat → LookupOutcome) (jit : Nat → Nat → Fin 1000)
    (st : EngineState) (chunkIndex : Nat) : ChunkAcc :=
  (pendingWithIdx st.items).foldl
    (chunkStep calls jit (chunkUseGranular st) (chunkInterval st)
      (chunkBase st chunkIndex) (chunkTotalForPct st))
    ⟨st.items, 0, []⟩

/-- One `process-chunk` step (functions.ts lines 45–207).  Returns
the updated store, the progress writes of this chunk (incremental
ones, then the authoritative end-of-chunk sync), and `hasMore`. -/
def processChunk (calls : Nat → Nat → LookupOutcome) (jit : Nat → Nat → Fin 1000)
    (st : EngineState) (chunkIndex : Nat) :
    EngineState × List (Nat × Nat) × Bool :=
  if (pendingWithIdx st.items).isEmpty then (st, [], false)
  else
    let acc := chunkFoldOf calls jit st chunkIndex
    let totalFinished := terminalCount acc.items
    let total := acc.items.length
    let progress := if 0 < total then roundPct totalFinished total else 0
    ({ batch := { st.batch with processedCount := totalFinished, progress := progress },
       items := acc.items },
     acc.writes ++ [(totalFinished, progress)],
     (pendingWithIdx st.items).length == BATCH_SIZE)

/-- An external cancellation landing at a chunk boundary: the cancel
route sets the stored status to STOPPED. -/
def applyStopSignal (stop : Bool) (st : EngineState) : EngineState :=
  if stop then { st with batch := { st.batch with status := .STOPPED } } else st

/-- The `while (hasMore)` loop (functions.ts lines 36–215) from chunk
`chunkIndex`, with structural fuel.  Returns the final store, all
progress writes in order, and the number of chunks processed.  The
loop continues only while the chunk was full and
`chunkIndex + 1 <= 2000`, so fuel `2002` is never exhausted from
`chunkIndex = 0`. -/
def driverGo (calls : Nat → Nat → LookupOutcome) (jit : Nat → Nat → Fin 1000)
    (stopSig : Nat → Bool) : Nat → EngineState → Nat → EngineState × List (Nat × Nat) × Nat
  | 0, st, _ => (st, [], 0)
  | fuel + 1, st, chunkIndex =>
    let st1 := applyStopSignal (stopSig chunkIndex) st
    if st1.batch.status = .STOPPED then (st1, [], 0)
    else
      let r := processChunk calls jit st1 chunkIndex
      if r.2.2 = true ∧ chunkIndex + 1 ≤ 2000 then
        let rec2 := driverGo calls jit stopSig fuel r.1 (chunkIndex + 1)
        (rec2.1, r.2.1 ++ rec2.2.1, rec2.2.2 + 1)
      else (r.1, r.2.1, 1)

/-- The `mark-completed` step (functions.ts lines 218–223): set
COMPLETED and progress 100 unless the stored status reads STOPPED. -/
def markCompleted (st : EngineState) : EngineState :=
  if st.batch.status ≠ .STOPPED then
    { st with batch := { st.batch with status := .COMPLETED, progress := 100 } }
  else st

/-- Enough fuel for the whole loop: the `chunkIndex > 2000` ceiling
exits after at most 2001 iterations. -/
def DRIVER_FUEL : Nat := 2002

/-- The whole `processWikidata` function: `init-processing`, the
chunk loop from index 0, then `mark-completed` (after a possible
late external stop `finalStop`). -/
def processWikidata (calls : Nat → Nat → LookupOutcome) (jit : Nat → Nat → Fin 1000)
    (stopSig : Nat → Bool) (finalStop : Bool) (st : EngineState) :
    EngineState × List (Nat × Nat) :=
  let st0 : EngineState := { st with batch := { st.batch with status := .PROCESSING } }
  let r := driverGo calls jit stopSig DRIVER_FUEL st0 0
  let st2 := applyStopSignal finalStop r.1
  (markCompleted st2, r.2.1)

/-- C3: a STOPPED status observed at a chunk boundary halts the loop
at once — no further chunk is processed and no write is issued from
that point; and the final `mark-completed` step sets COMPLETED with
progress 100 exactly when the status at that moment is not STOPPED: a
STOPPED job is left untouched, never overwritten to COMPLETED. -/
theorem stopped_halts_loop (calls : Nat → Nat → LookupOutcome)
    (jit : Nat → Nat → Fin 1000) (stopSig : Nat → Bool) (finalStop : Bool)
    (st : EngineState) (c fuel : Nat) :
    ((applyStopSignal (stopSig c) st).batch.status = .STOPPED →
      driverGo calls jit stopSig (fuel + 1) st c =
        (applyStopSignal (stopSig c) st, [], 0)) ∧
    (∀ st' : EngineState,
      (st'.batch.status = .STOPPED → markCompleted st' = st') ∧
      (st'.batch.status ≠ .STOPPED →
        (markCompleted st').batch.status = .COMPLETED ∧
        (markCompleted st').batch.progress = 100)) ∧
    processWikidata calls jit stopSig finalStop st =
      (markCompleted (applyStopSignal finalStop
          (driverGo calls jit stopSig DRIVER_FUEL
            { st with batch := { st.batch with status := .PROCESSING } } 0).1),
       (driverGo calls jit stopSig DRIVER_FUEL
          { st with batch := { st.batch with status := .PROCESSING } } 0).2.1) := by
  refine ⟨?_, ?_, rfl⟩
  · intro hstop
    simp only [driverGo, hstop, if_pos]
  · intro st'
    constructor
    · intro hstop
      simp [markCompleted, hstop]
    · intro hne
      simp [markCompleted, hne]

/-- Witness for `stopped_halts_loop`: a stop signal at chunk 0 halts
a one-item job untouched, and a STOPPED state survives
`mark-completed` while a PROCESSING state is completed. -/
theorem stopped_halts_loop_witness :
    (applyStopSignal true
      (⟨⟨.PROCESSING, 0, 1, 0⟩, [⟨false, .PENDING, none, none⟩]⟩ : EngineState)).batch.status
        = .STOPPED ∧
    driverGo (fun _ _ => .ok none) (fun _ _ => (0 : Fin 1000)) (fun _ => true) 1
        ⟨⟨.PROCESSING, 0, 1, 0⟩, [⟨false, .PENDING, none, none⟩]⟩ 0 =
      (applyStopSignal true ⟨⟨.PROCESSING, 0, 1, 0⟩, [⟨false, .PENDING, none, none⟩]⟩, [], 0) ∧
    (⟨⟨.STOPPED, 40, 5, 2⟩, []⟩ : EngineState).batch.status = .STOPPED ∧
    markCompleted ⟨⟨.STOPPED, 40, 5, 2⟩, []⟩ = ⟨⟨.STOPPED, 40, 5, 2⟩, []⟩ ∧
    (⟨⟨.PROCESSING, 40, 5, 2⟩, []⟩ : EngineState).batch.status ≠ .STOPPED ∧
    (markCompleted ⟨⟨.PROCESSING, 40, 5, 2⟩, []⟩).batch.status = .COMPLETED ∧
    (markCompleted ⟨⟨.PROCESSING, 40, 5, 2⟩, []⟩).batch.progress = 100 := by
  have h := stopped_halts_loop (fun _ _ => .ok none) (fun _ _ => (0 : Fin 1000))
    (fun _ => true) false ⟨⟨.PROCESSING, 0, 1, 0⟩, [⟨false, .PENDING, none, none⟩]⟩ 0 0
  refine ⟨by decide, h.1 (by decide), by decide,
    (h.2.1 ⟨⟨.STOPPED, 40, 5, 2⟩, []⟩).1 (by decide), by decide,
    (h.2.1 ⟨⟨.PROCESSING, 40, 5, 2⟩, []⟩).2 (by decide) |>.1,
    (h.2.1 ⟨⟨.PROCESSING, 40, 5, 2⟩, []⟩).2 (by decide) |>.2⟩

/-! ### Frame properties of the chunk fold -/

theorem pendingWithIdx_spec {items : List BatchItemRec} :
    ∀ p ∈ pendingWithIdx items, items[p.1]? = some p.2 ∧ p.2.status = .PENDING := by
  intro p hp
  have hp1 : p ∈ items.enum.filter (fun q => decide (q.2.status = .PENDING)) :=
    List.take_subset _ _ hp
  have h2 := List.mem_filter.mp hp1
  exact ⟨List.mem_enum_iff_getElem?.mp h2.1, by simpa using h2.2⟩

/-- Every branch of `chunkStep` writes exactly one item — the one at
the fetched index — and always a terminal status. -/
theorem chunkStep_items_set (calls : Nat → Nat → LookupOutcome)
    (jit : Nat → Nat → Fin 1000) (useG : Bool) (interval base totalPct : Nat)
    (acc : ChunkAcc) (p : Nat × BatchItemRec) :
    ∃ x : BatchItemRec,
      (chunkStep calls jit useG interval base totalPct acc p).items
        = acc.items.set p.1 x ∧
      (x.status = .COMPLETED ∨ x.status = .FAILED) := by
  simp only [chunkStep]
  by_cases hpre : p.2.prefilledKgId
  · simp only [hpre, if_true]
    exact ⟨_, rfl, Or.inl rfl⟩
  · simp only [hpre, Bool.false_eq_true, if_false]
    cases hsr : searchWithRetry (calls p.1) (jit p.1) with
    | mk o ds =>
      cases o with
      | success r => exact ⟨_, rfl, Or.inl rfl⟩
      | failure msg => exact ⟨_, rfl, Or.inr rfl⟩

theorem chunkFold_items_getElem (calls : Nat → Nat → LookupOutcome)
    (jit : Nat → Nat → Fin 1000) (useG : Bool) (interval base totalPct : Nat) :
    ∀ (fetched : List (Nat × BatchItemRec)) (acc : ChunkAcc) (i : Nat),
      (∀ p ∈ fetched, p.1 ≠ i) →
      ((fetched.foldl (chunkStep calls jit useG interval base totalPct) acc).items)[i]?
        = acc.items[i]? := by
  intro fetched
  induction fetched with
  | nil => intro acc i _; rfl
  | cons p rest ih =>
    intro acc i hni
    simp only [List.foldl_cons]
    rw [ih _ i (fun q hq => hni q (List.mem_cons_of_mem _ hq))]
    obtain ⟨x, hx, _⟩ := chunkStep_items_set calls jit useG interval base totalPct acc p
    rw [hx]
    exact List.getElem?_set_ne (hni p (List.mem_cons_self _ _))

theorem chunkFold_items_length (calls : Nat → Nat → LookupOutcome)
    (jit : Nat → Nat → Fin 1000) (useG : Bool) (interval base totalPct : Nat) :
    ∀ (fetched : List (Nat × BatchItemRec)) (acc : ChunkAcc),
      ((fetched.foldl (chunkStep calls jit useG interval base totalPct) acc).items).length
        = acc.items.length := by
  intro fetched
  induction fetched with
  | nil => intro acc; rfl
  | cons p rest ih =>
    intro acc
    simp only [List.foldl_cons]
    rw [ih]
    obtain ⟨x, hx, _⟩ := chunkStep_items_set calls jit useG interval base totalPct acc p
    rw [hx, List.length_set]

/-- A chunk never touches an item that is already terminal: its whole
record (status, result, error) is preserved. -/
theorem processChunk_frame (calls : Nat → Nat → LookupOutcome)
    (jit : Nat → Nat → Fin 1000) (st : EngineState) (c i : Nat) (it : BatchItemRec)
    (hit : st.items[i]? = some it)
    (hterm : it.status = .COMPLETED ∨ it.status = .FAILED) :
    (processChunk calls jit st c).1.items[i]? = some it := by
  simp only [processChunk]
  by_cases hemp : (pendingWithIdx st.items).isEmpty
  · simp [hemp, hit]
  · simp only [hemp, Bool.false_eq_true, if_false]
    unfold chunkFoldOf
    rw [chunkFold_items_getElem]
    · exact hit
    · intro p hp heq
      obtain ⟨hg, hpend⟩ := pendingWithIdx_spec p hp
      rw [heq, hit] at hg
      have : it = p.2 := by injection hg
      rw [this] at hterm
      rcases hterm with h | h <;> rw [hpend] at h <;> exact ItemStatus.noConfusion h

theorem applyStopSignal_items (b : Bool) (st : EngineState) :
    (applyStopSignal b st).items = st.items := by
  cases b <;> rfl

theorem applyStopSignal_counts (b : Bool) (st : EngineState) :
    (applyStopSignal b st).batch.totalItems = st.batch.totalItems ∧
    (applyStopSignal b st).batch.processedCount = st.batch.processedCount := by
  cases b <;> exact ⟨rfl, rfl⟩

theorem markCompleted_items (st : EngineState) :
    (markCompleted st).items = st.items := by
  simp only [markCompleted]
  split <;> rfl

theorem driverGo_frame (calls : Nat → Nat → LookupOutcome)
    (jit : Nat → Nat → Fin 1000) (stopSig : Nat → Bool) :
    ∀ (fuel : Nat) (st : EngineState) (c i : Nat) (it : BatchItemRec),
      st.items[i]? = some it → (it.status = .COMPLETED ∨ it.status = .FAILED) →
      ((driverGo calls jit stopSig fuel st c).1.items)[i]? = some it := by
  intro fuel
  induction fuel with
  | zero => intro st c i it hit _; simpa [driverGo] using hit
  | succ fuel ih =>
    intro st c i it hit hterm
    simp only [driverGo]
    have hit1 : (applyStopSignal (stopSig c) st).items[i]? = some it := by
      rw [applyStopSignal_items]; exact hit
    by_cases hstop : (applyStopSignal (stopSig c) st).batch.status = .STOPPED
    · simp only [hstop, if_pos]
      exact hit1
    · simp only [hstop, if_neg, if_false]
      have hit2 :
          (processChunk calls jit (applyStopSignal (stopSig c) st) c).1.items[i]? = some it :=
        processChunk_frame calls jit _ c i it hit1 hterm
      by_cases hmore :
          (processChunk calls jit (applyStopSignal (stopSig c) st) c).2.2 = true ∧ c + 1 ≤ 2000
      · simp only [hmore, if_pos, and_self]
        exact ih _ (c + 1) i it hit2 hterm
      · simp only [hmore, if_neg, if_false]
        exact hit2

/-- C4: a resumed run only fetches PENDING items, and an item already
COMPLETED or FAILED is untouched by the whole run — its status,
result and error fields are exactly what they were. -/
theorem resume_touches_only_pending (calls : Nat → Nat → LookupOutcome)
    (jit : Nat → Nat → Fin 1000) (stopSig : Nat → Bool) (finalStop : Bool)
    (st : EngineState) (i : Nat) (it : BatchItemRec)
    (hit : st.items[i]? = some it)
    (hterm : it.status = .COMPLETED ∨ it.status = .FAILED) :
    (∀ p ∈ pendingWithIdx st.items, p.2.status = .PENDING) ∧
    (processWikidata calls jit stopSig finalStop st).1.items[i]? = some it := by
  refine ⟨fun p hp => (pendingWithIdx_spec p hp).2, ?_⟩
  show (markCompleted (applyStopSignal finalStop
      (driverGo calls jit stopSig DRIVER_FUEL
        { st with batch := { st.batch with status := .PROCESSING } } 0).1)).items[i]?
    = some it
  rw [markCompleted_items, applyStopSignal_items]
  exact driverGo_frame calls jit stopSig DRIVER_FUEL
    { st with batch := { st.batch with status := .PROCESSING } } 0 i it hit hterm

/-- Witness for `resume_touches_only_pending`: a two-item store whose
first item is already COMPLETED with a stored result keeps that exact
record through a full run that completes the second item. -/
theorem resume_touches_only_pending_witness :
    ((⟨⟨.STOPPED, 50, 2, 1⟩,
       [⟨false, .COMPLETED, some none, none⟩, ⟨false, .PENDING, none, none⟩]⟩ :
        EngineState).items)[0]? = some ⟨false, .COMPLETED, some none, none⟩ ∧
    ((⟨false, .COMPLETED, some none, none⟩ : BatchItemRec).status = .COMPLETED ∨
      (⟨false, .COMPLETED, some none, none⟩ : BatchItemRec).status = .FAILED) ∧
    (processWikidata (fun _ _ => .ok none) (fun _ _ => (0 : Fin 1000)) (fun _ => false) false
        ⟨⟨.STOPPED, 50, 2, 1⟩,
         [⟨false, .COMPLETED, some none, none⟩,
          ⟨false, .PENDING, none, none⟩]⟩).1.items[0]?
      = some ⟨false, .COMPLETED, some none, none⟩ :=
  ⟨by decide, by decide,
   (resume_touches_only_pending (fun _ _ => .ok none) (fun _ _ => (0 : Fin 1000))
      (fun _ => false) false
      ⟨⟨.STOPPED, 50, 2, 1⟩,
       [⟨false, .COMPLETED, some none, none⟩, ⟨false, .PENDING, none, none⟩]⟩
      0 ⟨false, .COMPLETED, some none, none⟩ (by decide) (by decide)).2⟩

/-! ### Counting lemmas for the progress invariant -/

theorem roundPct_le_100 {num den : Nat} (h : num ≤ den) (hden : 0 < den) :
    roundPct num den ≤ 100 := by
  have h2 : 0 < 2 * den := by omega
  have hlt : 200 * num + den < 101 * (2 * den) := by omega
  have := (Nat.div_lt_iff_lt_mul h2).mpr hlt
  unfold roundPct
  omega

theorem terminal_add_pending (items : List BatchItemRec) :
    terminalCount items + pendingCount items = items.length := by
  induction items with
  | nil => rfl
  | cons it rest ih =>
    have h1 : terminalCount (it :: rest) =
        (if it.status = .PENDING then terminalCount rest else terminalCount rest + 1) := by
      cases h : it.status <;> simp [terminalCount, List.filter_cons, h]
    have h2 : pendingCount (it :: rest) =
        (if it.status = .PENDING then pendingCount rest + 1 else pendingCount rest) := by
      cases h : it.status <;> simp [pendingCount, List.filter_cons, h]
    rw [h1, h2, List.length_cons]
    by_cases hp : it.status = .PENDING <;> simp only [hp, if_pos, if_neg, if_true, if_false] <;>
      omega

theorem enumFrom_filter_length {α : Type} (pred : α → Bool) :
    ∀ (n : Nat) (l : List α),
      ((List.enumFrom n l).filter (fun p => pred p.2)).length = (l.filter pred).length := by
  intro n l
  induction l generalizing n with
  | nil => rfl
  | cons a rest ih =>
    simp only [List.enumFrom_cons, List.filter_cons]
    by_cases h : pred a <;> simp [h, ih]

theorem pendingWithIdx_length_le (items : List BatchItemRec) :
    (pendingWithIdx items).length ≤ pendingCount items := by
  unfold pendingWithIdx pendingCount
  have h1 : ((items.enum.filter
      (fun p => decide (p.2.status = .PENDING))).take BATCH_SIZE).length
      ≤ (items.enum.filter (fun p => decide (p.2.status = .PENDING))).length := by
    rw [List.length_take]
    exact min_le_right _ _
  refine h1.trans ?_
  show (((List.enumFrom 0 items).filter
      (fun p => decide (p.2.status = .PENDING))).length ≤ _)
  rw [enumFrom_filter_length (fun it => decide (it.status = .PENDING)) 0 items]

theorem terminalCount_le_length (items : List BatchItemRec) :
    terminalCount items ≤ items.length :=
  List.length_filter_le _ _

theorem terminalCount_set {items : List BatchItemRec} :
    ∀ {i : Nat} {x y : BatchItemRec},
      items[i]? = some y → y.status = .PENDING →
      (x.status = .COMPLETED ∨ x.status = .FAILED) →
      terminalCount (items.set i x) = terminalCount items + 1 := by
  induction items with
  | nil => intro i x y hy _ _; simp at hy
  | cons a rest ih =>
    intro i x y hy hpend hx
    cases i with
    | zero =>
      have ha : a = y := by simpa using hy
      subst ha
      have hna : ¬ (a.status = .COMPLETED ∨ a.status = .FAILED) := by
        rw [hpend]; rintro (h | h) <;> exact ItemStatus.noConfusion h
      simp only [List.set, terminalCount, List.filter_cons, decide_eq_true_eq]
      rw [if_pos hx, if_neg hna]
      simp
    | succ n =>
      have hy' : rest[n]? = some y := by simpa using hy
      have hrec := ih hy' hpend hx
      simp only [terminalCount] at hrec
      by_cases hap : a.status = .COMPLETED ∨ a.status = .FAILED
      · simp only [List.set, terminalCount, List.filter_cons, decide_eq_true_eq]
        rw [if_pos hap, if_pos hap]
        simp only [List.length_cons]
        omega
      · simp only [List.set, terminalCount, List.filter_cons, decide_eq_true_eq]
        rw [if_neg hap, if_neg hap]
        omega

theorem enumFrom_pairwise {α : Type} :
    ∀ (n : Nat) (l : List α),
      (List.enumFrom n l).Pairwise (fun p q => p.1 < q.1) := by
  intro n l
  induction l generalizing n with
  | nil => simp
  | cons a rest ih =>
    simp only [List.enumFrom_cons]
    refine List.Pairwise.cons ?_ (ih (n + 1))
    intro q hq
    obtain ⟨i, x⟩ := q
    have := (List.mem_enumFrom hq).1
    simpa using this

theorem pendingWithIdx_pairwise (items : List BatchItemRec) :
    (pendingWithIdx items).Pairwise (fun p q => p.1 < q.1) := by
  unfold pendingWithIdx
  exact List.Pairwise.sublist
    ((List.take_sublist _ _).trans (List.filter_sublist _))
    (enumFrom_pairwise 0 items)

/-- `chunkStep` bumps the shared counter by at most one. -/
theorem chunkStep_counter (calls : Nat → Nat → LookupOutcome)
    (jit : Nat → Nat → Fin 1000) (useG : Bool) (interval base totalPct : Nat)
    (acc : ChunkAcc) (p : Nat × BatchItemRec) :
    acc.counter ≤ (chunkStep calls jit useG interval base totalPct acc p).counter ∧
    (chunkStep calls jit useG interval base totalPct acc p).counter ≤ acc.counter + 1 := by
  simp only [chunkStep]
  by_cases hpre : p.2.prefilledKgId
  · simp only [hpre, if_true]
    cases useG <;> simp
  · simp only [hpre, Bool.false_eq_true, if_false]
    cases searchWithRetry (calls p.1) (jit p.1) with
    | mk o ds =>
      cases o with
      | success r => cases useG <;> simp
      | failure msg => cases useG <;> simp

/-- `chunkStep` either keeps the write list or appends exactly the
incremental write `(base + counter', roundPct ...)` for the bumped
counter. -/
theorem chunkStep_writes (calls : Nat → Nat → LookupOutcome)
    (jit : Nat → Nat → Fin 1000) (useG : Bool) (interval base totalPct : Nat)
    (acc : ChunkAcc) (p : Nat × BatchItemRec) :
    (chunkStep calls jit useG interval base totalPct acc p).writes = acc.writes ∨
    ((chunkStep calls jit useG interval base totalPct acc p).writes =
        acc.writes ++ [((base + (chunkStep calls jit useG interval base totalPct acc p).counter),
          roundPct (base + (chunkStep calls jit useG interval base totalPct acc p).counter)
            totalPct)] ∧
      (chunkStep calls jit useG interval base totalPct acc p).counter = acc.counter + 1) := by
  simp only [chunkStep]
  by_cases hpre : p.2.prefilledKgId
  · simp only [hpre, if_true]
    left; simp
  · simp only [hpre, Bool.false_eq_true, if_false]
    cases searchWithRetry (calls p.1) (jit p.1) with
    | mk o ds =>
      cases o with
      | failure msg => left; simp
      | success r =>
        simp only
        by_cases hcond : (useG = true ∧
            (if useG = true then acc.counter + 1 else acc.counter) % interval = 0)
        · rw [if_pos hcond]
          refine Or.inr ⟨rfl, ?_⟩
          simp [hcond.1]
        · rw [if_neg hcond]
          exact Or.inl rfl

theorem chunkFold_counter_mono (calls : Nat → Nat → LookupOutcome)
    (jit : Nat → Nat → Fin 1000) (useG : Bool) (interval base totalPct : Nat) :
    ∀ (fetched : List (Nat × BatchItemRec)) (acc : ChunkAcc),
      acc.counter ≤
        ((fetched.foldl (chunkStep calls jit useG interval base totalPct) acc)).counter ∧
      ((fetched.foldl (chunkStep calls jit useG interval base totalPct) acc)).counter ≤
        acc.counter + fetched.length := by
  intro fetched
  induction fetched with
  | nil => intro acc; simp
  | cons p rest ih =>
    intro acc
    simp only [List.foldl_cons, List.length_cons]
    have h1 := chunkStep_counter calls jit useG interval base totalPct acc p
    have h2 := ih (chunkStep calls jit useG interval base totalPct acc p)
    exact ⟨h1.1.trans h2.1, h2.2.trans (by omega)⟩

/-- Every write the fold issues beyond `acc.writes` is an incremental
write for a counter value within this chunk. -/
theorem chunkFold_writes (calls : Nat → Nat → LookupOutcome)
    (jit : Nat → Nat → Fin 1000) (useG : Bool) (interval base totalPct : Nat) :
    ∀ (fetched : List (Nat × BatchItemRec)) (acc : ChunkAcc),
      ∀ w ∈ ((fetched.foldl (chunkStep calls jit useG interval base totalPct) acc)).writes,
        w ∈ acc.writes ∨
        ∃ n, acc.counter < n ∧
          n ≤ ((fetched.foldl (chunkStep calls jit useG interval base totalPct) acc)).counter ∧
          w = (base + n, roundPct (base + n) totalPct) := by
  intro fetched
  induction fetched with
  | nil => intro acc w hw; exact Or.inl hw
  | cons p rest ih =>
    intro acc w hw
    simp only [List.foldl_cons] at hw ⊢
    have hstep := chunkStep_writes calls jit useG interval base totalPct acc p
    have hcnt := chunkStep_counter calls jit useG interval base totalPct acc p
    have hmono := chunkFold_counter_mono calls jit useG interval base totalPct rest
      (chunkStep calls jit useG interval base totalPct acc p)
    rcases ih (chunkStep calls jit useG interval base totalPct acc p) w hw with hmem | ⟨n, hn1, hn2, hwv⟩
    · rcases hstep with heq | ⟨heq, hc⟩
      · rw [heq] at hmem
        exact Or.inl hmem
      · rw [heq] at hmem
        rcases List.mem_append.mp hmem with h | h
        · exact Or.inl h
        · simp only [List.mem_singleton] at h
          refine Or.inr ⟨(chunkStep calls jit useG interval base totalPct acc p).counter,
            by omega, hmono.1, h⟩
    · exact Or.inr ⟨n, by omega, hn2, hwv⟩

/-- Processing a chunk of distinct PENDING positions turns each of
them terminal: the terminal count grows by exactly the chunk size. -/
theorem chunkFold_terminalCount (calls : Nat → Nat → LookupOutcome)
    (jit : Nat → Nat → Fin 1000) (useG : Bool) (interval base totalPct : Nat) :
    ∀ (fetched : List (Nat × BatchItemRec)) (acc : ChunkAcc),
      (∀ p ∈ fetched, acc.items[p.1]? = some p.2 ∧ p.2.status = .PENDING) →
      fetched.Pairwise (fun p q => p.1 < q.1) →
      terminalCount ((fetched.foldl (chunkStep calls jit useG interval base totalPct) acc)).items
        = terminalCount acc.items + fetched.length := by
  intro fetched
  induction fetched with
  | nil => intro acc _ _; simp
  | cons p rest ih =>
    intro acc hmem hpw
    simp only [List.foldl_cons, List.length_cons]
    obtain ⟨x, hx, hxt⟩ := chunkStep_items_set calls jit useG interval base totalPct acc p
    have hp := hmem p (List.mem_cons_self _ _)
    have hterm1 : terminalCount (chunkStep calls jit useG interval base totalPct acc p).items
        = terminalCount acc.items + 1 := by
      rw [hx]; exact terminalCount_set hp.1 hp.2 hxt
    have hpw' := List.pairwise_cons.mp hpw
    have hrest : ∀ q ∈ rest,
        (chunkStep calls jit useG interval base totalPct acc p).items[q.1]? = some q.2 ∧
        q.2.status = .PENDING := by
      intro q hq
      have hne : p.1 ≠ q.1 := Nat.ne_of_lt (hpw'.1 q hq)
      rw [hx, List.getElem?_set_ne hne]
      exact hmem q (List.mem_cons_of_mem _ hq)
    rw [ih _ hrest hpw'.2, hterm1]
    omega

theorem chunkFoldOf_items_length (calls : Nat → Nat → LookupOutcome)
    (jit : Nat → Nat → Fin 1000) (st : EngineState) (c : Nat) :
    (chunkFoldOf calls jit st c).items.length = st.items.length :=
  chunkFold_items_length calls jit (chunkUseGranular st) (chunkInterval st)
    (chunkBase st c) (chunkTotalForPct st) (pendingWithIdx st.items) ⟨st.items, 0, []⟩

/-- Every progress write of one chunk — incremental or sync —
carries a processed count within `totalItems` and the rounded
percentage of that count. -/
theorem processChunk_writes (calls : Nat → Nat → LookupOutcome)
    (jit : Nat → Nat → Fin 1000) (st : EngineState) (c : Nat)
    (h1 : st.batch.totalItems = st.items.length)
    (hbase : chunkBase st c = terminalCount st.items) :
    ∀ w ∈ (processChunk calls jit st c).2.1,
      w.1 ≤ st.batch.totalItems ∧ w.2 = roundPct w.1 st.batch.totalItems ∧ w.2 ≤ 100 := by
  intro w hw
  by_cases hemp : (pendingWithIdx st.items).isEmpty
  · simp [processChunk, hemp] at hw
  · simp only [processChunk, hemp, Bool.false_eq_true, if_false] at hw
    have hne : pendingWithIdx st.items ≠ [] := by
      intro h; rw [h] at hemp; exact hemp rfl
    obtain ⟨p, hp⟩ := List.exists_mem_of_ne_nil _ hne
    have hspec := pendingWithIdx_spec p hp
    have hplen : p.1 < st.items.length := (List.getElem?_eq_some.mp hspec.1).1
    have hlen0 : 0 < st.items.length := Nat.lt_of_le_of_lt (Nat.zero_le _) hplen
    have hTIne : st.batch.totalItems ≠ 0 := by omega
    have hTPct : chunkTotalForPct st = st.batch.totalItems := by
      simp [chunkTotalForPct, hTIne]
    rcases List.mem_append.mp hw with hw1 | hw2
    · have hchar := chunkFold_writes calls jit (chunkUseGranular st) (chunkInterval st)
        (chunkBase st c) (chunkTotalForPct st) (pendingWithIdx st.items)
        ⟨st.items, 0, []⟩ w hw1
      rcases hchar with hmem | ⟨n, hn1, hn2, hwv⟩
      · simp at hmem
      · have hcnt := (chunkFold_counter_mono calls jit (chunkUseGranular st)
          (chunkInterval st) (chunkBase st c) (chunkTotalForPct st)
          (pendingWithIdx st.items) ⟨st.items, 0, []⟩).2
        have hfl : (pendingWithIdx st.items).length ≤ pendingCount st.items :=
          pendingWithIdx_length_le st.items
        have hpart := terminal_add_pending st.items
        have hle : chunkBase st c + n ≤ st.batch.totalItems := by
          rw [hbase, h1]
          simp only at hcnt
          omega
        rw [hwv]
        refine ⟨hle, by rw [hTPct], ?_⟩
        rw [hTPct]
        exact roundPct_le_100 hle (by omega)
    · simp only [List.mem_singleton] at hw2
      have htf_le : terminalCount (chunkFoldOf calls jit st c).items ≤ st.items.length := by
        have := terminalCount_le_length (chunkFoldOf calls jit st c).items
        rw [chunkFoldOf_items_length] at this
        exact this
      have hpos : 0 < (chunkFoldOf calls jit st c).items.length := by
        rw [chunkFoldOf_items_length]; exact hlen0
      rw [hw2]
      refine ⟨by omega, ?_, ?_⟩
      · rw [if_pos hpos, chunkFoldOf_items_length, ← h1]
      · rw [if_pos hpos, chunkFoldOf_items_length, ← h1]
        exact roundPct_le_100 (by omega) (by omega)

/-- A chunk preserves `totalItems` and the store size, re-establishes
`processedCount = terminalCount` through the authoritative sync, and
a full chunk (`hasMore`) leaves at least `BATCH_SIZE` processed. -/
theorem processChunk_post (calls : Nat → Nat → LookupOutcome)
    (jit : Nat → Nat → Fin 1000) (st : EngineState) (c : Nat)
    (h2 : st.batch.processedCount = terminalCount st.items) :
    (processChunk calls jit st c).1.batch.totalItems = st.batch.totalItems ∧
    (processChunk calls jit st c).1.items.length = st.items.length ∧
    (processChunk calls jit st c).1.batch.processedCount
        = terminalCount (processChunk calls jit st c).1.items ∧
    ((processChunk calls jit st c).2.2 = true →
      100 ≤ (processChunk calls jit st c).1.batch.processedCount) := by
  by_cases hemp : (pendingWithIdx st.items).isEmpty
  · refine ⟨by simp [processChunk, hemp], by simp [processChunk, hemp],
      by simp [processChunk, hemp, h2], ?_⟩
    intro hmore
    simp [processChunk, hemp] at hmore
  · refine ⟨by simp [processChunk, hemp], ?_, by simp [processChunk, hemp], ?_⟩
    · simp only [processChunk, hemp, Bool.false_eq_true, if_false]
      exact chunkFoldOf_items_length calls jit st c
    · intro hmore
      have hfl : (pendingWithIdx st.items).length = BATCH_SIZE := by
        simp [processChunk, hemp] at hmore
        exact hmore
      have htc := chunkFold_terminalCount calls jit (chunkUseGranular st) (chunkInterval st)
        (chunkBase st c) (chunkTotalForPct st) (pendingWithIdx st.items)
        ⟨st.items, 0, []⟩ (fun p hp => pendingWithIdx_spec p hp)
        (pendingWithIdx_pairwise st.items)
      simp only [processChunk, hemp, Bool.false_eq_true, if_false]
      show 100 ≤ terminalCount (chunkFoldOf calls jit st c).items
      unfold chunkFoldOf
      rw [htc, hfl]
      simp [BATCH_SIZE]

/-- All writes of the loop from chunk `c`, by induction over the
fuel, under the store-consistency invariants. -/
theorem driverGo_writes (calls : Nat → Nat → LookupOutcome)
    (jit : Nat → Nat → Fin 1000) (stopSig : Nat → Bool) :
    ∀ (fuel : Nat) (st : EngineState) (c : Nat),
      st.batch.totalItems = st.items.length →
      st.batch.processedCount = terminalCount st.items →
      (st.batch.processedCount = 0 → c = 0) →
      ∀ w ∈ (driverGo calls jit stopSig fuel st c).2.1,
        w.1 ≤ st.batch.totalItems ∧ w.2 = roundPct w.1 st.batch.totalItems ∧ w.2 ≤ 100 := by
  intro fuel
  induction fuel with
  | zero => intro st c _ _ _ w hw; simp [driverGo] at hw
  | succ fuel ih =>
    intro st c h1 h2 h3 w hw
    have e1 := (applyStopSignal_counts (stopSig c) st).1
    have e2 := (applyStopSignal_counts (stopSig c) st).2
    have e3 := applyStopSignal_items (stopSig c) st
    simp only [driverGo] at hw
    by_cases hstop : (applyStopSignal (stopSig c) st).batch.status = .STOPPED
    · rw [if_pos hstop] at hw; simp at hw
    · rw [if_neg hstop] at hw
      have h1' : (applyStopSignal (stopSig c) st).batch.totalItems
          = (applyStopSignal (stopSig c) st).items.length := by
        rw [e1, e3]; exact h1
      have h2' : (applyStopSignal (stopSig c) st).batch.processedCount
          = terminalCount (applyStopSignal (stopSig c) st).items := by
        rw [e2, e3]; exact h2
      have hbase : chunkBase (applyStopSignal (stopSig c) st) c
          = terminalCount (applyStopSignal (stopSig c) st).items := by
        unfold chunkBase
        rw [e2, e3]
        by_cases hz : st.batch.processedCount = 0
        · rw [if_pos hz, h3 hz, ← h2, hz]
          simp
        · rw [if_neg hz]; exact h2
      have hcw := processChunk_writes calls jit _ c h1' hbase
      have hpost := processChunk_post calls jit _ c h2'
      by_cases hmore :
          (processChunk calls jit (applyStopSignal (stopSig c) st) c).2.2 = true ∧
            c + 1 ≤ 2000
      · rw [if_pos hmore] at hw
        simp only at hw
        rcases List.mem_append.mp hw with hA | hB
        · have := hcw w hA
          rw [e1] at this
          exact this
        · have hrec := ih (processChunk calls jit (applyStopSignal (stopSig c) st) c).1 (c + 1)
            (by rw [hpost.1, hpost.2.1]; exact h1')
            hpost.2.2.1
            (fun hz => absurd hz (by have := hpost.2.2.2 hmore.1; omega))
            w hB
          rw [hpost.1, e1] at hrec
          exact hrec
      · rw [if_neg hmore] at hw
        have := hcw w hw
        rw [e1] at this
        exact this

/-- C5: after every progress write the engine performs — incremental
in-chunk writes and end-of-chunk syncs alike — the written
`processedCount` is at most `totalItems`, and the written progress is
exactly `round(processedCount / totalItems * 100)`, hence at most
100.  The hypotheses say the store is consistent when the run starts:
`totalItems` matches the number of ingested items and
`processedCount` matches the count of terminal items (0 for a fresh
job, the last authoritative sync for a resumed one). -/
theorem progress_writes_invariant (calls : Nat → Nat → LookupOutcome)
    (jit : Nat → Nat → Fin 1000) (stopSig : Nat → Bool) (finalStop : Bool)
    (st : EngineState)
    (h1 : st.batch.totalItems = st.items.length)
    (h2 : st.batch.processedCount = terminalCount st.items) :
    ∀ w ∈ (processWikidata calls jit stopSig finalStop st).2,
      w.1 ≤ st.batch.totalItems ∧ w.2 = roundPct w.1 st.batch.totalItems ∧ w.2 ≤ 100 := by
  intro w hw
  exact driverGo_writes calls jit stopSig DRIVER_FUEL
    { st with batch := { st.batch with status := .PROCESSING } } 0 h1 h2 (fun _ => rfl) w hw

/-- Witness for `progress_writes_invariant`: a 3-item job produces
the write sequence (1,33), (2,67), (3,100) and the sync (3,100), each
satisfying the invariant. -/
theorem progress_writes_invariant_witness :
    ((⟨⟨.PENDING, 0, 3, 0⟩,
       [⟨false, .PENDING, none, none⟩, ⟨false, .PENDING, none, none⟩,
        ⟨false, .PENDING, none, none⟩]⟩ : EngineState)).batch.totalItems = 3 ∧
    ((⟨⟨.PENDING, 0, 3, 0⟩,
       [⟨false, .PENDING, none, none⟩, ⟨false, .PENDING, none, none⟩,
        ⟨false, .PENDING, none, none⟩]⟩ : EngineState)).batch.processedCount =
      terminalCount [⟨false, .PENDING, none, none⟩, ⟨false, .PENDING, none, none⟩,
        ⟨false, .PENDING, none, none⟩] ∧
    (processWikidata (fun _ _ => .ok none) (fun _ _ => (0 : Fin 1000)) (fun _ => false) false
      ⟨⟨.PENDING, 0, 3, 0⟩,
       [⟨false, .PENDING, none, none⟩, ⟨false, .PENDING, none, none⟩,
        ⟨false, .PENDING, none, none⟩]⟩).2 = [(1, 33), (2, 67), (3, 100), (3, 100)] ∧
    (∀ w ∈ (processWikidata (fun _ _ => .ok none) (fun _ _ => (0 : Fin 1000))
        (fun _ => false) false
        ⟨⟨.PENDING, 0, 3, 0⟩,
         [⟨false, .PENDING, none, none⟩, ⟨false, .PENDING, none, none⟩,
          ⟨false, .PENDING, none, none⟩]⟩).2,
      w.1 ≤ 3 ∧ w.2 = roundPct w.1 3 ∧ w.2 ≤ 100) :=
  ⟨by decide, by decide, by decide,
   progress_writes_invariant (fun _ _ => .ok none) (fun _ _ => (0 : Fin 1000))
     (fun _ => false) false
     ⟨⟨.PENDING, 0, 3, 0⟩,
      [⟨false, .PENDING, none, none⟩, ⟨false, .PENDING, none, none⟩,
       ⟨false, .PENDING, none, none⟩]⟩ (by decide) (by decide)⟩

/-! ### The hard chunk ceiling

Lines 209–214 of functions.ts:
`if (!result.hasMore) hasMore = false; chunkIndex++;
if (chunkIndex > 2000) hasMore = false;`.  With `chunkIndex` starting
at 0, the loop body can run for `chunkIndex = 0 .. 2000` — 2001 chunk
iterations, not 2000.  `loopIters` is the loop's control skeleton with
the per-chunk outcome abstracted into an arbitrary sequence
(`stopSeq c` = status read STOPPED before chunk `c`; `moreSeq c` =
chunk `c` reported `hasMore`), counting processed chunks. -/
def loopIters (stopSeq moreSeq : Nat → Bool) : Nat → Nat → Nat
  | 0, _ => 0
  | fuel + 1, c =>
    if stopSeq c then 0
    else if moreSeq c = true ∧ c + 1 ≤ 2000 then loopIters stopSeq moreSeq fuel (c + 1) + 1
    else 1

theorem loopIters_le (stopSeq moreSeq : Nat → Bool) :
    ∀ (fuel c : Nat), c ≤ 2000 → loopIters stopSeq moreSeq fuel c ≤ 2001 - c := by
  intro fuel
  induction fuel with
  | zero => intro c _; simp [loopIters]
  | succ fuel ih =>
    intro c hc
    simp only [loopIters]
    by_cases hstop : stopSeq c = true
    · rw [if_pos hstop]; omega
    · rw [if_neg hstop]
      by_cases hm : moreSeq c = true ∧ c + 1 ≤ 2000
      · rw [if_pos hm]
        have := ih (c + 1) hm.2
        omega
      · rw [if_neg hm]; omega

theorem driverGo_chunks_le (calls : Nat → Nat → LookupOutcome)
    (jit : Nat → Nat → Fin 1000) (stopSig : Nat → Bool) :
    ∀ (fuel : Nat) (st : EngineState) (c : Nat), c ≤ 2000 →
      (driverGo calls jit stopSig fuel st c).2.2 ≤ 2001 - c := by
  intro fuel
  induction fuel with
  | zero => intro st c _; simp [driverGo]
  | succ fuel ih =>
    intro st c hc
    simp only [driverGo]
    by_cases hstop : (applyStopSignal (stopSig c) st).batch.status = .STOPPED
    · rw [if_pos hstop]
      show (0 : Nat) ≤ 2001 - c
      omega
    · rw [if_neg hstop]
      by_cases hm :
          (processChunk calls jit (applyStopSignal (stopSig c) st) c).2.2 = true ∧
            c + 1 ≤ 2000
      · rw [if_pos hm]
        have := ih (processChunk calls jit (applyStopSignal (stopSig c) st) c).1
          (c + 1) hm.2
        show (driverGo calls jit stopSig fuel
            (processChunk calls jit (applyStopSignal (stopSig c) st) c).1 (c + 1)).2.2 + 1
          ≤ 2001 - c
        omega
      · rw [if_neg hm]
        show (1 : Nat) ≤ 2001 - c
        omega

/-- With no stop signal and every chunk reporting `hasMore`, the loop
runs for exactly `2001 - c` more chunks from index `c`. -/
theorem loopIters_all_true :
    ∀ (fuel c : Nat), c ≤ 2000 → 2001 - c ≤ fuel →
      loopIters (fun _ => false) (fun _ => true) fuel c = 2001 - c := by
  intro fuel
  induction fuel with
  | zero => intro c hc hf; omega
  | succ fuel ih =>
    intro c hc hf
    by_cases hm : c + 1 ≤ 2000
    · rw [show loopIters (fun _ => false) (fun _ => true) (fuel + 1) c
          = loopIters (fun _ => false) (fun _ => true) fuel (c + 1) + 1 by
        simp [loopIters, hm]]
      rw [ih (c + 1) hm (by omega)]
      omega
    · rw [show loopIters (fun _ => false) (fun _ => true) (fuel + 1) c = 1 by
        simp [loopIters, hm]]
      omega

/-- C8 counterexample: with no stop signal and a full chunk reported
every time, the loop performs 2001 chunk iterations — more than the
2000 the claim states as the ceiling. -/
theorem chunk_ceiling_counterexample :
    loopIters (fun _ => false) (fun _ => true) DRIVER_FUEL 0 = 2001 ∧
    ¬ (loopIters (fun _ => false) (fun _ => true) DRIVER_FUEL 0 ≤ 2000) := by
  have h := loopIters_all_true DRIVER_FUEL 0 (by omega) (by simp [DRIVER_FUEL])
  simp only [Nat.sub_zero] at h
  exact ⟨h, by omega⟩

/-- C8 amended: for every run of the driver loop, over any sequence
of chunk outcomes and stop signals, at most 2001 chunk iterations are
executed before the loop halts — both for the abstract control
skeleton and for the full engine model. -/
theorem chunk_ceiling_bound (stopSeq moreSeq : Nat → Bool)
    (calls : Nat → Nat → LookupOutcome) (jit : Nat → Nat → Fin 1000)
    (stopSig : Nat → Bool) (st : EngineState) :
    loopIters stopSeq moreSeq DRIVER_FUEL 0 ≤ 2001 ∧
    (driverGo calls jit stopSig DRIVER_FUEL st 0).2.2 ≤ 2001 := by
  constructor
  · simpa using loopIters_le stopSeq moreSeq DRIVER_FUEL 0 (by omega)
  · simpa using driverGo_chunks_le calls jit stopSig DRIVER_FUEL st 0 (by omega)

/-! ## Batch lifecycle operations

The status writes the system performs on a Batch, one transition
function per operation.  `none` means the operation writes nothing
(the route rejects the request, or the step skips its write):

* upload `init` creates the Batch with status UPLOADING
  (upload/init/route.ts line 37);
* upload `complete` sets PENDING unconditionally
  (the first route of part_008, line 19);
* the driver's `init-processing` step sets PROCESSING unconditionally
  (functions.ts line 28);
* the driver's `mark-completed` step sets COMPLETED unless the stored
  status reads STOPPED (functions.ts lines 218–223);
* `cancel` rejects COMPLETED/FAILED batches and otherwise sets
  STOPPED (cancel/route.ts lines 24–29);
* `retry` rejects COMPLETED batches and batches with no credentials,
  and otherwise resets the status to PENDING
  (retry/route.ts lines 28–42). -/

/-- The status written by `Batch.create` at upload init. -/
def uploadInitStatus : BatchStatus := .UPLOADING

/-- The status-mutating operations, with the retry route carrying
whether `validKeys` is non-empty. -/
inductive JobOp where
  | uploadComplete
  | driverStart
  | driverFinish
  | cancel
  | retry (hasKeys : Bool)
  deriving DecidableEq, Repr, Fintype

/-- One operation applied to the stored status. -/
def opStep : JobOp → BatchStatus → Option BatchStatus
  | .uploadComplete, _ => some .PENDING
  | .driverStart, _ => some .PROCESSING
  | .driverFinish, s => if s = .STOPPED then none else some .COMPLETED
  | .cancel, s => if s = .COMPLETED ∨ s = .FAILED then none else some .STOPPED
  | .retry k, s =>
      if s = .COMPLETED then none
      else if k = false then none
      else some .PENDING

/-- C6 counterexample: cancelling a PENDING batch moves it to STOPPED
— so STOPPED is entered from a status other than PROCESSING — and
retrying a FAILED batch moves it to PENDING — so FAILED is not
terminal. -/
theorem lifecycle_counterexample :
    opStep .cancel .PENDING = some .STOPPED ∧
    (BatchStatus.PENDING ≠ BatchStatus.PROCESSING) ∧
    opStep (.retry true) .FAILED = some .PENDING ∧
    (BatchStatus.PENDING ≠ BatchStatus.FAILED) := by
  refine ⟨rfl, by decide, rfl, by decide⟩

/-- C6 amended: STOPPED is entered only by the cancel route, from any
status other than COMPLETED and FAILED (not only from PROCESSING);
cancel and retry both reject COMPLETED batches and cancel also
rejects FAILED ones; retry without credentials is always rejected;
retry moves a FAILED batch (and any other non-COMPLETED one with
credentials) to PENDING; and the upload-complete and driver-start
operations set PENDING resp. PROCESSING unconditionally, whatever
the prior status. -/
theorem lifecycle_transitions :
    (∀ (op : JobOp) (s s' : BatchStatus), opStep op s = some s' → s' = .STOPPED →
      op = .cancel ∧ s ≠ .COMPLETED ∧ s ≠ .FAILED) ∧
    opStep .cancel .COMPLETED = none ∧
    opStep .cancel .FAILED = none ∧
    (∀ k, opStep (.retry k) .COMPLETED = none) ∧
    (∀ s, opStep (.retry false) s = none) ∧
    (∀ s', opStep (.retry true) .FAILED = some s' → s' = .PENDING) ∧
    (∀ s, opStep .uploadComplete s = some .PENDING) ∧
    (∀ s, opStep .driverStart s = some .PROCESSING) ∧
    uploadInitStatus = .UPLOADING := by
  refine ⟨by decide, rfl, rfl, by decide, by decide, by decide, by decide, by decide, rfl⟩

/-- Witness for `lifecycle_transitions`: the STOPPED
characterisation applied to cancelling an UPLOADING batch. -/
theorem lifecycle_transitions_witness :
    opStep .cancel .UPLOADING = some .STOPPED ∧
    (JobOp.cancel = JobOp.cancel ∧
      BatchStatus.UPLOADING ≠ BatchStatus.COMPLETED ∧
      BatchStatus.UPLOADING ≠ BatchStatus.FAILED) :=
  ⟨rfl, lifecycle_transitions.1 .cancel .UPLOADING .STOPPED rfl rfl⟩

/-! ## Idempotent ingestion (part_008 second route, lines 85–95)

The upload-chunk endpoint performs a `bulkWrite` of `updateOne`
operations with filter `{ batchId, "data._rowId" }`, update
`{ $setOnInsert: item }` and `upsert: true`, against the unique
compound index `{ batchId: 1, "data._rowId": 1 }` of BatchItem
(part_001 line 51): a document matching the filter is left exactly
as stored (`$setOnInsert` changes nothing on update), otherwise the
new document is inserted. -/

/-- A stored BatchItem row: parent id, the `data._rowId` key, the
rest of the payload (opaque), and the status. -/
structure StoredItem where
  batchId : String
  rowId : Nat
  payload : String
  status : ItemStatus
  deriving DecidableEq, Repr

/-- The `(batchId, data._rowId)` identity of the unique index. -/
def sameKey (a b : StoredItem) : Bool :=
  a.batchId == b.batchId && a.rowId == b.rowId

/-- One `updateOne ... upsert` against the unique index. -/
def upsertOne (store : List StoredItem) (it : StoredItem) : List StoredItem :=
  if store.any (fun s => sameKey s it) then store else store ++ [it]

/-- An ordered `bulkWrite` of upserts. -/
def bulkUpsert (store : List StoredItem) (items : List StoredItem) : List StoredItem :=
  items.foldl upsertOne store

/-- C9: inserting two items carrying the same `(jobId, rowId)` key —
within one chunk or across two chunk uploads — into a store not yet
holding that key leaves exactly one stored item for the key, with the
payload of the first insertion. -/
theorem idempotent_ingestion (store : List StoredItem) (it1 it2 : StoredItem)
    (hkey : it1.batchId = it2.batchId ∧ it1.rowId = it2.rowId)
    (habs : store.filter (fun s => sameKey s it1) = []) :
    (bulkUpsert store [it1, it2]).filter (fun s => sameKey s it1) = [it1] ∧
    (bulkUpsert (bulkUpsert store [it1]) [it2]).filter (fun s => sameKey s it1) = [it1] := by
  have hnone : ∀ s ∈ store, sameKey s it1 = false := by
    intro s hs
    by_contra h
    have : s ∈ store.filter (fun s => sameKey s it1) :=
      List.mem_filter.mpr ⟨hs, by simpa using h⟩
    rw [habs] at this
    simp at this
  have hany1 : store.any (fun s => sameKey s it1) = false := by
    rw [List.any_eq_false]
    intro s hs
    simp [hnone s hs]
  have hstep1 : upsertOne store it1 = store ++ [it1] := by
    simp [upsertOne, hany1]
  have hself : sameKey it1 it1 = true := by
    simp [sameKey]
  have hmatch2 : sameKey it1 it2 = true := by
    simp [sameKey, hkey.1, hkey.2]
  have hany2 : (store ++ [it1]).any (fun s => sameKey s it2) = true := by
    rw [List.any_eq_true]
    exact ⟨it1, by simp, hmatch2⟩
  have hstep2 : upsertOne (store ++ [it1]) it2 = store ++ [it1] := by
    simp [upsertOne, hany2]
  have hfilter : (store ++ [it1]).filter (fun s => sameKey s it1) = [it1] := by
    rw [List.filter_append, List.filter_eq_nil_iff.mpr (fun a ha => by simp [hnone a ha])]
    simp [hself]
  constructor
  · show (upsertOne (upsertOne store it1) it2).filter (fun s => sameKey s it1) = [it1]
    rw [hstep1, hstep2, hfilter]
  · show (upsertOne (upsertOne store it1) it2).filter (fun s => sameKey s it1) = [it1]
    rw [hstep1, hstep2, hfilter]

/-- Witness for `idempotent_ingestion`: re-inserting row 0 of a batch
with a different payload keeps the first payload only. -/
theorem idempotent_ingestion_witness :
    ((⟨"batch1", 0, "first", .PENDING⟩ : StoredItem).batchId =
        (⟨"batch1", 0, "second", .PENDING⟩ : StoredItem).batchId ∧
      (⟨"batch1", 0, "first", .PENDING⟩ : StoredItem).rowId =
        (⟨"batch1", 0, "second", .PENDING⟩ : StoredItem).rowId) ∧
    ([] : List StoredItem).filter
      (fun s => sameKey s ⟨"batch1", 0, "first", .PENDING⟩) = [] ∧
    (bulkUpsert [] [⟨"batch1", 0, "first", .PENDING⟩, ⟨"batch1", 0, "second", .PENDING⟩]).filter
      (fun s => sameKey s ⟨"batch1", 0, "first", .PENDING⟩)
      = [⟨"batch1", 0, "first", .PENDING⟩] :=
  ⟨⟨rfl, rfl⟩, rfl,
   (idempotent_ingestion [] ⟨"batch1", 0, "first", .PENDING⟩
     ⟨"batch1", 0, "second", .PENDING⟩ ⟨rfl, rfl⟩ rfl).1⟩

end GenKgMid
